import Mathlib

/-!
Verification of the download-mirror content-addressed cache
(internal/cache/cache.go) and the CAS handler composed with the WebDAV
upstream (internal/cas, internal/upstream/webdav.go).

Bytes are modelled as natural numbers, blobs as lists of bytes, and the
on-disk state of the cache as two association lists keyed by the blob ID:
one for the index files (suffix "-a") and one for the data files
(suffix "-d").  The Go function fileName is injective per (ID, suffix),
so the two maps are a faithful rendering of the two-level directory.
Wall-clock instants are unix nanoseconds, modelled as integers.
The hash builder is a parameter, as in the Go code.
-/

namespace DownloadMirror

/-- A blob: an ordered sequence of bytes.  A byte is a Nat in 0..255; the
model does not force the bound, theorems assume it where it matters. -/
abbrev Blob := List Nat

/-- How often the file mtime on a cache entry is updated, in nanoseconds
(1 hour, from cache.go). -/
def mtimeInterval : Int := 3600000000000

/-- How long cache entries are kept before trimming, in nanoseconds
(5 days, from cache.go). -/
def trimLimitNs : Nat := 432000000000000

/-- Length of the hex encoding of an ID of size S (hexSize in cache.go). -/
def hexSize (S : Nat) : Nat := 2 * S

/-- Fixed length of an index file (entrySize in cache.go):
2 + 1 + hexSize + 1 + 20 + 1 + 20 + 1. -/
def entrySize (S : Nat) : Nat := 2 + 1 + hexSize S + 1 + 20 + 1 + 20 + 1

/-- A parsed index entry: Size and Time (unix nanoseconds, the argument of
time.Unix(0, tm)). -/
structure Entry where
  size : Int
  time : Int
deriving DecidableEq, Repr

/-- Content and mtime of one on-disk file. -/
structure FileData where
  content : Blob
  mtime : Int
deriving DecidableEq, Repr

/-- The cache directory: index files ("-a") and data files ("-d"), keyed by
ID. -/
structure CacheFS where
  index : List (Blob × FileData)
  data : List (Blob × FileData)
deriving DecidableEq, Repr

/-- Error classification of cache operations.  notExist renders errors that
wrap os.ErrNotExist (every branch of getIndexEntry uses the missing helper,
and Chtimes on an absent path returns ENOENT); contentChanged is the plain
fmt.Errorf of copyFile; ioError covers the remaining I/O failures. -/
inductive CacheError where
  | notExist (reason : String)
  | contentChanged
  | ioError (reason : String)
deriving DecidableEq, Repr

/-- Association-list lookup, first binding wins (the file system has one
file per name). -/
def lookupA (m : List (Blob × FileData)) (k : Blob) : Option FileData :=
  match m with
  | [] => none
  | (k', v) :: rest => if k' = k then some v else lookupA rest k

/-- Association-list write: replace the first binding of the key, or append
a new binding. -/
def setA (m : List (Blob × FileData)) (k : Blob) (v : FileData) :
    List (Blob × FileData) :=
  match m with
  | [] => [(k, v)]
  | (k', v') :: rest =>
    if k' = k then (k, v) :: rest else (k', v') :: setA rest k v

/-! ### Decimal formatting and parsing (fmt %d and strconv.ParseInt) -/

/-- Decimal digits of a natural number, most significant first, as ASCII
codes; structural on a fuel argument so that the kernel can evaluate it. -/
def natDecAux (fuel n : Nat) : List Nat :=
  match fuel with
  | 0 => []
  | fuel + 1 =>
    if n < 10 then [48 + n] else natDecAux fuel (n / 10) ++ [48 + n % 10]

/-- ASCII decimal rendering of a natural number (what fmt %d prints). -/
def natDec (n : Nat) : List Nat := natDecAux (n + 1) n

/-- ASCII decimal rendering of an integer (fmt %d), with a leading minus
sign for negative values. -/
def intDec (i : Int) : List Nat :=
  if i < 0 then 45 :: natDec (-i).toNat else natDec i.toNat

/-- Space-pad a rendered number on the left to 20 columns (fmt %20d); a
longer rendering is left as is. -/
def pad20 (l : List Nat) : List Nat := List.replicate (20 - l.length) 32 ++ l

/-- Accumulating decimal parse: digits only, or none on any non-digit. -/
def digitsValCore (acc : Nat) : List Nat → Option Nat
  | [] => some acc
  | d :: rest =>
    if 48 ≤ d ∧ d ≤ 57 then digitsValCore (acc * 10 + (d - 48)) rest else none

/-- Value of a non-empty digit string, none otherwise. -/
def digitsVal (l : List Nat) : Option Nat :=
  match l with
  | [] => none
  | d :: rest => digitsValCore 0 (d :: rest)

/-- strconv.ParseInt(s, 10, 64): an optional single sign, then at least
one digit, value within the int64 range (out-of-range is an error). -/
def parseIntGo (s : List Nat) : Option Int :=
  match s with
  | [] => none
  | c :: rest =>
    if c = 43 then
      match digitsVal rest with
      | none => none
      | some v => if v ≤ 2 ^ 63 - 1 then some (v : Int) else none
    else if c = 45 then
      match digitsVal rest with
      | none => none
      | some v => if v ≤ 2 ^ 63 then some (-(v : Int)) else none
    else
      match digitsVal (c :: rest) with
      | none => none
      | some v => if v ≤ 2 ^ 63 - 1 then some (v : Int) else none

/-! ### Hex encoding and decoding (fmt %x and encoding/hex) -/

/-- Lowercase hex digit for a value below 16 (fmt %x). -/
def hexDigitChar (n : Nat) : Nat := if n < 10 then 48 + n else 87 + n

/-- Lowercase hex encoding of a byte string, two digits per byte. -/
def hexEncode : Blob → List Nat
  | [] => []
  | b :: rest => hexDigitChar (b / 16) :: hexDigitChar (b % 16) :: hexEncode rest

/-- hex digit value; encoding/hex accepts both lowercase and uppercase. -/
def fromHexChar (c : Nat) : Option Nat :=
  if 48 ≤ c ∧ c ≤ 57 then some (c - 48)
  else if 97 ≤ c ∧ c ≤ 102 then some (c - 87)
  else if 65 ≤ c ∧ c ≤ 70 then some (c - 55)
  else none

/-- hex.Decode on a buffer of exactly the right capacity: pairs of hex
digits; odd length or an invalid digit is an error. -/
def hexDecodePairs : List Nat → Option Blob
  | [] => some []
  | [_] => none
  | p :: q :: rest =>
    match fromHexChar p, fromHexChar q with
    | some a, some b =>
      match hexDecodePairs rest with
      | some tl => some ((16 * a + b) :: tl)
      | none => none
    | _, _ => none

/-! ### The index file format and parser -/

/-- The exact bytes putIndexEntry writes:
fmt.Sprintf("v1 %x %20d %20d\n", id, size, tm). -/
def formatEntry (id : Blob) (size : Nat) (wall : Int) : Blob :=
  [118, 49, 32] ++ hexEncode id ++ [32] ++ pad20 (natDec size) ++ [32] ++
    pad20 (intDec wall) ++ [10]

/-- An index-file content in the canonical fixed format for the given id,
for some representable size and timestamp (what the spec calls the
fixed-format record). -/
def canonicalIndexContent (id : Blob) (c : Blob) : Prop :=
  ∃ size : Nat, ∃ wall : Int,
    size < 2 ^ 63 ∧ 0 ≤ wall ∧ wall < 2 ^ 63 ∧ c = formatEntry id size wall

/-- getIndexEntry of cache.go: the content argument is the bytes of the
index file, or none when os.Open fails (file absent).  Every failure goes
through the missing helper, which wraps os.ErrNotExist. -/
def getIndexEntry (S : Nat) (id : Blob) (content : Option Blob) :
    Except CacheError Entry :=
  match content with
  | none => .error (.notExist "open")
  | some c =>
    if c.length > entrySize S then .error (.notExist "too long")
    else if c.length = 0 then .error (.notExist "file is empty")
    else if c.length < entrySize S then .error (.notExist "entry file incomplete")
    else
      if c.getD 0 0 = 118 ∧ c.getD 1 0 = 49 ∧ c.getD 2 0 = 32 ∧
          c.getD (3 + hexSize S) 0 = 32 ∧ c.getD (3 + hexSize S + 1 + 20) 0 = 32 ∧
          c.getD (entrySize S - 1) 0 = 10 then
        match hexDecodePairs ((c.drop 3).take (hexSize S)) with
        | none => .error (.notExist "decoding ID")
        | some buf =>
          if buf ≠ id then .error (.notExist "mismatched ID")
          else
            match parseIntGo (((c.drop (3 + hexSize S + 1)).take 20).dropWhile
                (fun ch => decide (ch = 32))) with
            | none => .error (.notExist "parsing size")
            | some size =>
              if size < 0 then .error (.notExist "negative size")
              else
                match parseIntGo (((c.drop (3 + hexSize S + 1 + 20 + 1)).take 20).dropWhile
                    (fun ch => decide (ch = 32))) with
                | none => .error (.notExist "parsing timestamp")
                | some tm =>
                  if tm < 0 then .error (.notExist "negative timestamp")
                  else .ok ⟨size, tm⟩
      else .error (.notExist "invalid header")

/-! ### Mtime refresh (used), Get and GetFile -/

/-- used of cache.go, acting on the map holding the file: skip the Chtimes
when the file exists and its mtime is younger than mtimeInterval;
otherwise set the mtime to now (Chtimes on an absent file fails with
ENOENT, which wraps os.ErrNotExist). -/
def usedTouch (m : List (Blob × FileData)) (k : Blob) (cnow : Int) :
    Except CacheError (List (Blob × FileData)) :=
  match lookupA m k with
  | none => .error (.notExist "chtimes")
  | some fd =>
    if cnow - fd.mtime < mtimeInterval then .ok m
    else .ok (setA m k ⟨fd.content, cnow⟩)

/-- Cache.Get: parse the index file, then refresh the mtime of the index
file (the "-a" name is passed to used in cache.go line 114). -/
def cacheGet (S : Nat) (st : CacheFS) (cnow : Int) (id : Blob) :
    Except CacheError Entry × CacheFS :=
  match getIndexEntry S id ((lookupA st.index id).map (·.content)) with
  | .error e => (.error e, st)
  | .ok entry =>
    match usedTouch st.index id cnow with
    | .error e => (.error e, st)
    | .ok idx => (.ok entry, { st with index := idx })

/-- Cache.GetFile: Get, then dataFile (which refreshes the data-file
mtime), then a stat comparing the data-file length with the entry size.
The returned blob is the content of the returned data-file path. -/
def cacheGetFile (S : Nat) (st : CacheFS) (cnow : Int) (id : Blob) :
    Except CacheError (Blob × Entry) × CacheFS :=
  match cacheGet S st cnow id with
  | (.error e, st') => (.error e, st')
  | (.ok entry, st1) =>
    match usedTouch st1.data id cnow with
    | .error e => (.error e, st1)
    | .ok dat =>
      let st2 : CacheFS := { st1 with data := dat }
      match lookupA st2.data id with
      | none => (.error (.notExist "stat"), st2)
      | some fd =>
        if (fd.content.length : Int) = entry.size then (.ok (fd.content, entry), st2)
        else (.error (.ioError "file incomplete"), st2)

/-! ### Put and copyFile -/

/-- Outcome of re-reading the input on the second pass of copyFile.  The
reader may have changed between the hashing pass and the copying pass, or
fail; ok carries the first size-1 bytes and the final byte. -/
inductive Read2 where
  | seekErr
  | copyErr (written : Blob)
  | lastErr (body : Blob)
  | ok (body : Blob) (last : Nat)
deriving DecidableEq, Repr

/-- A reader whose second pass yields the same bytes as the first. -/
def honestRead (b : Blob) : Read2 := .ok b.dropLast (b.getLastD 0)

/-- The write phase of copyFile, after the early idempotence check failed
or was skipped.  existing is the stat result; O_TRUNC is set when the
existing file is larger than size.  Every failure truncates the data file
to length 0; the final byte is appended only after the recomputed digest
matched. -/
def copyFileWrite (hash : Blob → Blob) (st : CacheFS) (out : Blob) (size : Nat)
    (second : Read2) (cnow : Int) (existing : Option FileData) :
    Except CacheError Unit × CacheFS :=
  let content0 : Blob :=
    match existing with
    | some fd => if fd.content.length > size then [] else fd.content
    | none => []
  let mtime0 : Int :=
    match existing with
    | some fd => if fd.content.length > size then cnow else fd.mtime
    | none => cnow
  if size = 0 then
    (.ok (), { st with data := setA st.data out ⟨content0, mtime0⟩ })
  else
    match second with
    | .seekErr => (.error (.ioError "seek"), { st with data := setA st.data out ⟨[], cnow⟩ })
    | .copyErr _ => (.error (.ioError "copy"), { st with data := setA st.data out ⟨[], cnow⟩ })
    | .lastErr _ => (.error (.ioError "read"), { st with data := setA st.data out ⟨[], cnow⟩ })
    | .ok body last =>
      if hash (body ++ [last]) = out then
        (.ok (), { st with data := setA st.data out ⟨body ++ [last], cnow⟩ })
      else
        (.error .contentChanged, { st with data := setA st.data out ⟨[], cnow⟩ })

/-- copyFile of cache.go: when a data file with the expected size is
already present and its content re-hashes to the expected ID, leave it in
place; otherwise rewrite it with the verify-then-commit protocol. -/
def copyFile (hash : Blob → Blob) (st : CacheFS) (out : Blob) (size : Nat)
    (second : Read2) (cnow : Int) : Except CacheError Unit × CacheFS :=
  match lookupA st.data out with
  | some fd =>
    if fd.content.length = size ∧ hash fd.content = out then (.ok (), st)
    else copyFileWrite hash st out size second cnow (some fd)
  | none => copyFileWrite hash st out size second cnow none

/-- putIndexEntry: write the canonical record and set the index-file mtime
to now.  wall is the time.Now().UnixNano() stamped into the record, cnow
the injected clock used for Chtimes. -/
def putIndexEntry (st : CacheFS) (id : Blob) (size : Nat) (wall cnow : Int) :
    CacheFS :=
  { st with index := setA st.index id ⟨formatEntry id size wall, cnow⟩ }

/-- Cache.Put: hash the first pass of the reader to obtain the ID and
size, copy the second pass into the data file, then write the index
entry. -/
def cachePut (hash : Blob → Blob) (st : CacheFS) (b : Blob) (second : Read2)
    (wall cnow : Int) : Except CacheError (Blob × Nat) × CacheFS :=
  let id := hash b
  let size := b.length
  match copyFile hash st id size second cnow with
  | (.error e, st') => (.error e, st')
  | (.ok _, st') => (.ok (id, size), putIndexEntry st' id size wall cnow)

/-! ### Size -/

/-- Contribution of one index file to Cache.Size: the parsed Size, or 0
when the entry fails to parse (the walk logs and skips it). -/
def sizeContribution (S : Nat) (p : Blob × FileData) : Int :=
  match getIndexEntry S p.1 (some p.2.content) with
  | .ok e => e.size
  | .error _ => 0

/-- Cache.Size on a canonical state, where every "-a" file carries the hex
name written by fileName and therefore decodes to its own ID. -/
def cacheSize (S : Nat) (st : CacheFS) : Int :=
  (st.index.map (sizeContribution S)).sum

/-- Result of the Size walk over arbitrary directory contents. -/
inductive WalkResult where
  | done (total : Int)
  | failed
  | panicked
deriving DecidableEq, Repr

/-- Outcome of hex.Decode into a fixed-capacity destination. -/
inductive HexCapResult where
  | ok (bytes : Blob)
  | errHex
  | panicked
deriving DecidableEq, Repr

/-- hex.Decode into a destination of the given capacity, as encoding/hex
implements it: left to right over digit pairs, an invalid digit or an odd
length is an error, and writing a decoded byte beyond the capacity is an
index-out-of-range panic. -/
def hexDecCapGo (cap : Nat) : List Nat → Nat → HexCapResult
  | [], _ => .ok []
  | [_], _ => .errHex
  | p :: q :: rest, i =>
    match fromHexChar p, fromHexChar q with
    | some a, some b =>
      if cap ≤ i then .panicked
      else
        match hexDecCapGo cap rest (i + 1) with
        | .ok tl => .ok ((16 * a + b) :: tl)
        | r => r
    | _, _ => .errHex

/-- The walk of Cache.Size over the basenames found in the cache
directory: every name ending in "-a" has its base hex-decoded into a
zero-initialised ID buffer of size S; a decode error aborts the walk, a
decoded ID whose index entry fails to parse contributes 0. -/
def sizeWalkGo (S : Nat) (read : Blob → Option Blob) :
    List (List Nat) → WalkResult
  | [] => .done 0
  | name :: rest =>
    if [45, 97].isSuffixOf name then
      match hexDecCapGo S (name.dropLast.dropLast) 0 with
      | .panicked => .panicked
      | .errHex => .failed
      | .ok bytes =>
        let id := bytes ++ List.replicate (S - bytes.length) 0
        let contrib : Int :=
          match getIndexEntry S id (read id) with
          | .ok e => e.size
          | .error _ => 0
        match sizeWalkGo S read rest with
        | .done t => .done (t + contrib)
        | r => r
    else sizeWalkGo S read rest

/-! ### Trim -/

/-- trimSubdir over all 256 buckets at once: delete every "-a" and "-d"
file whose mtime is strictly before the cutoff. -/
def trimSubdirAll (st : CacheFS) (cutoff : Int) : CacheFS :=
  { index := st.index.filter (fun p => !decide (p.2.mtime < cutoff)),
    data := st.data.filter (fun p => !decide (p.2.mtime < cutoff)) }

/-- The halving loop of Cache.Trim.  maxAge is a Go time.Duration, here
always non-negative, so a Nat.  The fuel bounds how many iterations are
observed: the Bool is true when the loop returned within the fuel, false
when the fuel ran out with the loop still running; the CacheFS is the
state at that point. -/
def trimLoop (S : Nat) (maxNats : Int) (now : Int) :
    Nat → Nat → CacheFS → CacheFS × Bool
  | 0, _, st => (st, false)
  | fuel + 1, maxAge, st =>
    let st' := trimSubdirAll st (now - (maxAge : Int) - mtimeInterval)
    if maxNats = 0 then (st', true)
    else if cacheSize S st' > maxNats then trimLoop S maxNats now fuel (maxAge / 2) st'
    else (st', true)

/-- Cache.Trim: run the halving loop from maxAge = trimLimit. -/
def cacheTrim (S : Nat) (st : CacheFS) (now : Int) (maxNats : Int)
    (fuel : Nat) : CacheFS × Bool :=
  trimLoop S maxNats now fuel trimLimitNs st

/-! ### The CAS handler and the WebDAV upstream -/

/-- Errors seen by the CAS handler when calling the upstream.
errNotFound is the canonical upstream.ErrNotFound sentinel (modelled from
the spec: upstream.go with the Upstream interface and its ErrNotFound is
not under src/; the spec defines it as a canonical not-found marker
distinguishable from transport errors).  gowebdavStatus is a raw error of
the gowebdav client, which does not wrap the sentinel. -/
inductive UpstreamError where
  | errNotFound
  | gowebdavStatus (code : Nat)
deriving DecidableEq, Repr

/-- WebDAV.Get of internal/upstream/webdav.go: it returns
client.ReadStream(base58(id)) directly, so an absent object surfaces as
the raw gowebdav 404 error, not as the ErrNotFound sentinel.  The server
is a map from IDs to blobs (base58 encoding of the name is injective). -/
def webdavGet (server : Blob → Option Blob) (id : Blob) :
    Except UpstreamError Blob :=
  match server id with
  | some body => .ok body
  | none => .error (.gowebdavStatus 404)

/-- Storage.Get of internal/cas: reply statuses as HTTP codes.  cacheRes
is the local cache lookup; on a miss (an error wrapping os.ErrNotExist)
the upstream result decides the reply: 404 exactly when
errors.Is(err, upstream.ErrNotFound), 500 on any other upstream error,
and the dual-sink streaming path (abstracted as a success) on ok. -/
def storageGet (cacheRes : Except CacheError Entry)
    (upsRes : Except UpstreamError Blob) : Nat :=
  match cacheRes with
  | .ok _ => 200
  | .error e =>
    match e with
    | .notExist _ =>
      match upsRes with
      | .error ue => if ue = .errNotFound then 404 else 500
      | .ok _ => 200
    | _ => 500

/-! ### Helper lemmas: decimal rendering and parsing -/

theorem natDecAux_fuel (f f' n : Nat) (hf : n < f) (hf' : n < f') :
    natDecAux f n = natDecAux f' n := by
  induction f generalizing n f' with
  | zero => omega
  | succ f ih =>
    cases f' with
    | zero => omega
    | succ f' =>
      show (if n < 10 then [48 + n] else natDecAux f (n / 10) ++ [48 + n % 10]) =
        (if n < 10 then [48 + n] else natDecAux f' (n / 10) ++ [48 + n % 10])
      by_cases h : n < 10
      · rw [if_pos h, if_pos h]
      · have hdiv : n / 10 < n := Nat.div_lt_self (by omega) (by omega)
        rw [if_neg h, if_neg h, ih f' (n / 10) (by omega) (by omega)]

theorem natDec_eq (n : Nat) :
    natDec n = if n < 10 then [48 + n] else natDec (n / 10) ++ [48 + n % 10] := by
  have step : natDec n =
      if n < 10 then [48 + n] else natDecAux n (n / 10) ++ [48 + n % 10] := rfl
  rw [step]
  by_cases h : n < 10
  · rw [if_pos h, if_pos h]
  · have hdiv : n / 10 < n := Nat.div_lt_self (by omega) (by omega)
    rw [if_neg h, if_neg h,
      natDecAux_fuel n (n / 10 + 1) (n / 10) (by omega) (by omega)]
    rfl

theorem natDec_head (n : Nat) :
    ∃ c rest, natDec n = c :: rest ∧ 48 ≤ c ∧ c ≤ 57 := by
  induction n using Nat.strong_induction_on with
  | _ n ih =>
    by_cases h : n < 10
    · refine ⟨48 + n, [], ?_, by omega, by omega⟩
      rw [natDec_eq, if_pos h]
    · have hdiv : n / 10 < n := Nat.div_lt_self (by omega) (by omega)
      obtain ⟨c, rest, heq, h1, h2⟩ := ih (n / 10) hdiv
      refine ⟨c, rest ++ [48 + n % 10], ?_, h1, h2⟩
      rw [natDec_eq, if_neg h, heq, List.cons_append]

theorem natDec_length (k : Nat) : ∀ n, n < 10 ^ (k + 1) → (natDec n).length ≤ k + 1 := by
  induction k with
  | zero =>
    intro n hn
    rw [natDec_eq, if_pos (by simpa using hn)]
    simp
  | succ k ih =>
    intro n hn
    rw [natDec_eq]
    by_cases h : n < 10
    · simp [h]
    · have hdiv : n / 10 < 10 ^ (k + 1) := by
        rw [Nat.div_lt_iff_lt_mul (by omega)]
        calc n < 10 ^ (k + 1 + 1) := hn
        _ = 10 ^ (k + 1) * 10 := by ring
      have := ih (n / 10) hdiv
      simp only [if_neg h, List.length_append, List.length_cons, List.length_nil]
      omega

theorem digitsValCore_append (xs ys : List Nat) (acc : Nat) :
    digitsValCore acc (xs ++ ys) =
      match digitsValCore acc xs with
      | some v => digitsValCore v ys
      | none => none := by
  induction xs generalizing acc with
  | nil => simp [digitsValCore]
  | cons d rest ih =>
    rw [List.cons_append]
    show (if 48 ≤ d ∧ d ≤ 57 then digitsValCore (acc * 10 + (d - 48)) (rest ++ ys)
        else none) = _
    by_cases h : 48 ≤ d ∧ d ≤ 57
    · rw [if_pos h, ih]
      show _ = (match (if 48 ≤ d ∧ d ≤ 57 then
          digitsValCore (acc * 10 + (d - 48)) rest else none) with
        | some v => digitsValCore v ys
        | none => none)
      rw [if_pos h]
    · rw [if_neg h]
      show _ = (match (if 48 ≤ d ∧ d ≤ 57 then
          digitsValCore (acc * 10 + (d - 48)) rest else none) with
        | some v => digitsValCore v ys
        | none => none)
      rw [if_neg h]

theorem digitsValCore_natDec (n : Nat) :
    ∀ acc, digitsValCore acc (natDec n) = some (acc * 10 ^ (natDec n).length + n) := by
  induction n using Nat.strong_induction_on with
  | _ n ih =>
    intro acc
    by_cases h : n < 10
    · rw [natDec_eq, if_pos h]
      show (if 48 ≤ 48 + n ∧ 48 + n ≤ 57 then
          digitsValCore (acc * 10 + (48 + n - 48)) [] else none) = _
      rw [if_pos (by omega)]
      show some (acc * 10 + (48 + n - 48)) = _
      simp only [List.length_cons, List.length_nil, pow_one, pow_zero, zero_add]
      congr 1
      omega
    · have hdiv : n / 10 < n := Nat.div_lt_self (by omega) (by omega)
      have hstep : natDec n = natDec (n / 10) ++ [48 + n % 10] := by
        rw [natDec_eq, if_neg h]
      rw [hstep, digitsValCore_append, ih (n / 10) hdiv acc]
      show (if 48 ≤ 48 + n % 10 ∧ 48 + n % 10 ≤ 57 then
          digitsValCore ((acc * 10 ^ (natDec (n / 10)).length + n / 10) * 10 +
            (48 + n % 10 - 48)) [] else none) = _
      rw [if_pos (by omega)]
      show some ((acc * 10 ^ (natDec (n / 10)).length + n / 10) * 10 +
        (48 + n % 10 - 48)) = _
      simp only [List.length_append, List.length_cons, List.length_nil]
      congr 1
      have hpow : acc * 10 ^ ((natDec (n / 10)).length + (0 + 1)) =
          acc * 10 ^ (natDec (n / 10)).length * 10 := by ring
      rw [hpow]
      have := Nat.div_add_mod n 10
      omega

theorem digitsVal_natDec (n : Nat) : digitsVal (natDec n) = some n := by
  have h := digitsValCore_natDec n 0
  obtain ⟨c, rest, heq, h1, h2⟩ := natDec_head n
  rw [heq] at h ⊢
  show digitsValCore 0 (c :: rest) = some n
  simpa using h

theorem parseIntGo_natDec (n : Nat) (hn : n ≤ 2 ^ 63 - 1) :
    parseIntGo (natDec n) = some (n : Int) := by
  obtain ⟨c, rest, heq, h1, h2⟩ := natDec_head n
  have hdv := digitsVal_natDec n
  rw [heq] at hdv ⊢
  show (if c = 43 then _ else if c = 45 then _ else
    match digitsVal (c :: rest) with
    | none => none
    | some v => if v ≤ 2 ^ 63 - 1 then some (v : Int) else none) = some (n : Int)
  rw [if_neg (by omega), if_neg (by omega), hdv]
  show (if n ≤ 2 ^ 63 - 1 then some (n : Int) else none) = some (n : Int)
  rw [if_pos hn]

theorem dropWhile_space_replicate (k : Nat) (l : List Nat) (c : Nat) (rest : List Nat)
    (hl : l = c :: rest) (hc : c ≠ 32) :
    (List.replicate k 32 ++ l).dropWhile (fun ch => decide (ch = 32)) = l := by
  induction k with
  | zero =>
    subst hl
    simp [List.dropWhile, hc]
  | succ k ih =>
    simpa [List.replicate_succ, List.dropWhile] using ih

theorem pad20_length (l : List Nat) (h : l.length ≤ 20) : (pad20 l).length = 20 := by
  simp only [pad20, List.length_append, List.length_replicate]
  omega

/-! ### Helper lemmas: hex -/

theorem fromHexChar_hexDigitChar (x : Nat) (hx : x < 16) :
    fromHexChar (hexDigitChar x) = some x := by
  interval_cases x <;> decide

theorem hexEncode_length (bs : Blob) : (hexEncode bs).length = 2 * bs.length := by
  induction bs with
  | nil => simp [hexEncode]
  | cons b rest ih => simp [hexEncode, ih]; omega

theorem hexDecodePairs_hexEncode (bs : Blob) (hb : ∀ x ∈ bs, x < 256) :
    hexDecodePairs (hexEncode bs) = some bs := by
  induction bs with
  | nil => simp [hexEncode, hexDecodePairs]
  | cons b rest ih =>
    have hb' : b < 256 := hb b (by simp)
    have h1 : fromHexChar (hexDigitChar (b / 16)) = some (b / 16) :=
      fromHexChar_hexDigitChar _ (by omega)
    have h2 : fromHexChar (hexDigitChar (b % 16)) = some (b % 16) :=
      fromHexChar_hexDigitChar _ (by omega)
    have ih' := ih (fun x hx => hb x (by simp [hx]))
    have hb2 : 16 * (b / 16) + b % 16 = b := by omega
    simp only [hexEncode, hexDecodePairs, h1, h2, ih', hb2]

/-! ### Helper lemmas: list indexing across appends -/

theorem getD_append_right (xs ys : List Nat) (i : Nat) :
    (xs ++ ys).getD (xs.length + i) 0 = ys.getD i 0 := by
  induction xs with
  | nil => simp
  | cons x rest ih => simpa [List.cons_append, Nat.succ_add] using ih

theorem drop_append_len (xs ys : List Nat) :
    (xs ++ ys).drop xs.length = ys := by
  induction xs with
  | nil => simp
  | cons x rest ih => simpa [List.cons_append] using ih

theorem take_append_len (xs ys : List Nat) :
    (xs ++ ys).take xs.length = xs := by
  induction xs with
  | nil => simp
  | cons x rest ih => simpa [List.cons_append] using ih

/-! ### The canonical record parses back -/

theorem intDec_nonneg (i : Int) (h : 0 ≤ i) : intDec i = natDec i.toNat := by
  simp [intDec, not_lt.mpr h]

theorem getIndexEntry_formatEntry (S : Nat) (id : Blob) (size : Nat) (wall : Int)
    (hid : id.length = S) (hbytes : ∀ x ∈ id, x < 256)
    (hsize : size < 2 ^ 63) (hwall0 : 0 ≤ wall) (hwall : wall < 2 ^ 63) :
    getIndexEntry S id (some (formatEntry id size wall)) =
      .ok ⟨(size : Int), wall⟩ := by
  have hH : (hexEncode id).length = hexSize S := by
    rw [hexEncode_length, hid]; rfl
  have hPn : (natDec size).length ≤ 19 := natDec_length 18 size (by omega)
  have hP : (pad20 (natDec size)).length = 20 := pad20_length _ (by omega)
  have hiw : intDec wall = natDec wall.toNat := intDec_nonneg wall hwall0
  have hQn : (natDec wall.toNat).length ≤ 19 := natDec_length 18 _ (by omega)
  have hQ : (pad20 (intDec wall)).length = 20 := by
    rw [hiw]; exact pad20_length _ (by omega)
  set c := formatEntry id size wall with hc
  have clen : c.length = entrySize S := by
    simp only [hc, formatEntry, List.length_append, hH, hP, hQ]
    simp only [List.length_cons, List.length_nil, entrySize]
  have hassoc0 : c = [118, 49, 32] ++ (hexEncode id ++ ([32] ++ (pad20 (natDec size) ++
      ([32] ++ (pad20 (intDec wall) ++ [10]))))) := by
    simp only [hc, formatEntry, List.append_assoc]
  have hpre1 : c = ([118, 49, 32] ++ hexEncode id) ++ ([32] ++ (pad20 (natDec size) ++
      ([32] ++ (pad20 (intDec wall) ++ [10])))) := by
    simp only [hc, formatEntry, List.append_assoc]
  have hpre2 : c = (([118, 49, 32] ++ hexEncode id) ++ [32]) ++ (pad20 (natDec size) ++
      ([32] ++ (pad20 (intDec wall) ++ [10]))) := by
    simp only [hc, formatEntry, List.append_assoc]
  have hpre3 : c = ((([118, 49, 32] ++ hexEncode id) ++ [32]) ++ pad20 (natDec size)) ++
      ([32] ++ (pad20 (intDec wall) ++ [10])) := by
    simp only [hc, formatEntry, List.append_assoc]
  have hpre4 : c = (((([118, 49, 32] ++ hexEncode id) ++ [32]) ++ pad20 (natDec size)) ++
      [32]) ++ (pad20 (intDec wall) ++ [10]) := by
    simp only [hc, formatEntry, List.append_assoc]
  have hpre5 : c = ((((([118, 49, 32] ++ hexEncode id) ++ [32]) ++ pad20 (natDec size)) ++
      [32]) ++ pad20 (intDec wall)) ++ [10] := by
    simp only [hc, formatEntry, List.append_assoc]
  have hlen1 : (([118, 49, 32] : List Nat) ++ hexEncode id).length = 3 + hexSize S := by
    simp only [List.length_append, hH, List.length_cons, List.length_nil]
  have hlen2 : ((([118, 49, 32] : List Nat) ++ hexEncode id) ++ [32]).length =
      3 + hexSize S + 1 := by
    simp only [List.length_append, hH, List.length_cons, List.length_nil]
  have hlen3 : (((([118, 49, 32] : List Nat) ++ hexEncode id) ++ [32]) ++
      pad20 (natDec size)).length = 3 + hexSize S + 1 + 20 := by
    simp only [List.length_append, hH, hP, List.length_cons, List.length_nil]
  have hlen4 : ((((([118, 49, 32] : List Nat) ++ hexEncode id) ++ [32]) ++
      pad20 (natDec size)) ++ [32]).length = 3 + hexSize S + 1 + 20 + 1 := by
    simp only [List.length_append, hH, hP, List.length_cons, List.length_nil]
  have hlen5 : (((((([118, 49, 32] : List Nat) ++ hexEncode id) ++ [32]) ++
      pad20 (natDec size)) ++ [32]) ++ pad20 (intDec wall)).length =
      3 + hexSize S + 1 + 20 + 1 + 20 := by
    simp only [List.length_append, hH, hP, hQ, List.length_cons, List.length_nil]
  have g0 : c.getD 0 0 = 118 := by rw [hassoc0]; rfl
  have g1 : c.getD 1 0 = 49 := by rw [hassoc0]; rfl
  have g2 : c.getD 2 0 = 32 := by rw [hassoc0]; rfl
  have g3 : c.getD (3 + hexSize S) 0 = 32 := by
    conv_lhs => rw [hpre1, show 3 + hexSize S =
      (([118, 49, 32] : List Nat) ++ hexEncode id).length + 0 from by
        simp only [List.length_append, List.length_cons, List.length_nil, hH]; omega]
    rw [getD_append_right]
    rfl
  have g4 : c.getD (3 + hexSize S + 1 + 20) 0 = 32 := by
    conv_lhs => rw [hpre3, show 3 + hexSize S + 1 + 20 =
      ((((([118, 49, 32] : List Nat) ++ hexEncode id) ++ [32]) ++
        pad20 (natDec size))).length + 0 from by
        simp only [List.length_append, List.length_cons, List.length_nil, hH, hP]
        try omega]
    rw [getD_append_right]
    rfl
  have g5 : c.getD (entrySize S - 1) 0 = 10 := by
    conv_lhs => rw [hpre5, show entrySize S - 1 =
      (((((([118, 49, 32] : List Nat) ++ hexEncode id) ++ [32]) ++
        pad20 (natDec size)) ++ [32]) ++ pad20 (intDec wall)).length + 0 from by
        simp only [List.length_append, List.length_cons, List.length_nil, hH, hP, hQ,
          entrySize, hexSize]; omega]
    rw [getD_append_right]
    rfl
  have heid : (c.drop 3).take (hexSize S) = hexEncode id := by
    conv_lhs => rw [hassoc0,
      show (3 : Nat) = ([118, 49, 32] : List Nat).length from rfl]
    rw [drop_append_len, ← hH, take_append_len]
  have hesize : (c.drop (3 + hexSize S + 1)).take 20 = pad20 (natDec size) := by
    conv_lhs => rw [hpre2, show 3 + hexSize S + 1 =
      ((([118, 49, 32] : List Nat) ++ hexEncode id) ++ [32]).length from hlen2.symm]
    rw [drop_append_len, show (20 : Nat) = (pad20 (natDec size)).length from hP.symm,
      take_append_len]
  have hetime : (c.drop (3 + hexSize S + 1 + 20 + 1)).take 20 = pad20 (intDec wall) := by
    conv_lhs => rw [hpre4, show 3 + hexSize S + 1 + 20 + 1 =
      (((((([118, 49, 32] : List Nat) ++ hexEncode id) ++ [32]) ++
        pad20 (natDec size)) ++ [32])).length from hlen4.symm]
    rw [drop_append_len, show (20 : Nat) = (pad20 (intDec wall)).length from hQ.symm,
      take_append_len]
  have hdec : hexDecodePairs ((c.drop 3).take (hexSize S)) = some id := by
    rw [heid]; exact hexDecodePairs_hexEncode id hbytes
  have hparseS : parseIntGo (((c.drop (3 + hexSize S + 1)).take 20).dropWhile
      (fun ch => decide (ch = 32))) = some ((size : Nat) : Int) := by
    rw [hesize]
    obtain ⟨d, rest, hnd, hd1, hd2⟩ := natDec_head size
    rw [show pad20 (natDec size) =
      List.replicate (20 - (natDec size).length) 32 ++ natDec size from rfl]
    rw [dropWhile_space_replicate _ _ d rest hnd (by omega)]
    exact parseIntGo_natDec size (by omega)
  have hparseT : parseIntGo (((c.drop (3 + hexSize S + 1 + 20 + 1)).take 20).dropWhile
      (fun ch => decide (ch = 32))) = some ((wall.toNat : Nat) : Int) := by
    rw [hetime, hiw]
    obtain ⟨d, rest, hnd, hd1, hd2⟩ := natDec_head wall.toNat
    rw [show pad20 (natDec wall.toNat) =
      List.replicate (20 - (natDec wall.toNat).length) 32 ++ natDec wall.toNat from rfl]
    rw [dropWhile_space_replicate _ _ d rest hnd (by omega)]
    exact parseIntGo_natDec _ (by omega)
  have hc1 : ¬ (c.length > entrySize S) := by rw [clen]; omega
  have hc2 : ¬ (c.length = 0) := by
    rw [clen]; simp only [entrySize, hexSize]; omega
  have hc3 : ¬ (c.length < entrySize S) := by rw [clen]; omega
  have hdr : c.getD 0 0 = 118 ∧ c.getD 1 0 = 49 ∧ c.getD 2 0 = 32 ∧
      c.getD (3 + hexSize S) 0 = 32 ∧ c.getD (3 + hexSize S + 1 + 20) 0 = 32 ∧
      c.getD (entrySize S - 1) 0 = 10 := ⟨g0, g1, g2, g3, g4, g5⟩
  simp only [getIndexEntry, if_neg hc1, if_neg hc2, if_neg hc3, if_pos hdr, hdec,
    hparseS, hparseT]
  rw [if_neg (show ¬ id ≠ id by simp)]
  rw [if_neg (show ¬ ((size : Nat) : Int) < 0 by omega)]
  rw [if_neg (show ¬ ((wall.toNat : Nat) : Int) < 0 by omega)]
  rw [Int.toNat_of_nonneg hwall0]

/-! ### Association list lemmas -/

theorem lookupA_setA_self (m : List (Blob × FileData)) (k : Blob) (v : FileData) :
    lookupA (setA m k v) k = some v := by
  induction m with
  | nil => simp [setA, lookupA]
  | cons p rest ih =>
    obtain ⟨k', v'⟩ := p
    by_cases h : k' = k
    · simp [setA, lookupA, h]
    · simp [setA, lookupA, h, ih]

theorem lookupA_setA_ne (m : List (Blob × FileData)) (k k' : Blob) (v : FileData)
    (h : k' ≠ k) : lookupA (setA m k v) k' = lookupA m k' := by
  have hk : k ≠ k' := Ne.symm h
  induction m with
  | nil => simp [setA, lookupA, hk]
  | cons p rest ih =>
    obtain ⟨k0, v0⟩ := p
    by_cases h0 : k0 = k
    · subst h0
      simp [setA, lookupA, hk]
    · simp only [setA, if_neg h0, lookupA]
      by_cases h1 : k0 = k'
      · simp [h1]
      · simp [h1, ih]

theorem setA_lookup_eq (m : List (Blob × FileData)) (k : Blob) (v : FileData)
    (h : lookupA m k = some v) : setA m k v = m := by
  induction m with
  | nil => simp [lookupA] at h
  | cons p rest ih =>
    obtain ⟨k0, v0⟩ := p
    by_cases h0 : k0 = k
    · subst h0
      have hv : v0 = v := by simpa [lookupA] using h
      simp [setA, hv]
    · simp only [lookupA, if_neg h0] at h
      simp [setA, h0, ih h]

theorem dropLast_getLastD (b : Blob) (hb : b ≠ []) :
    b.dropLast ++ [b.getLastD 0] = b := by
  induction b with
  | nil => exact absurd rfl hb
  | cons x rest ih =>
    cases rest with
    | nil => rfl
    | cons y t =>
      have h2 := ih (by simp)
      simp only [List.getLastD_cons] at h2
      simp only [List.dropLast_cons₂, List.cons_append, List.getLastD_cons]
      exact congrArg (x :: ·) h2

/-! ### What a successful Put leaves on disk -/

theorem cachePut_ok (hash : Blob → Blob) (st : CacheFS) (b : Blob) (wall cnow : Int)
    (hcoll : ∀ fd, lookupA st.data (hash b) = some fd → fd.content.length = b.length →
      hash fd.content = hash b → fd.content = b) :
    ∃ m : Int, cachePut hash st b (honestRead b) wall cnow =
      (.ok (hash b, b.length),
        ⟨setA st.index (hash b) ⟨formatEntry (hash b) b.length wall, cnow⟩,
         setA st.data (hash b) ⟨b, m⟩⟩) := by
  unfold cachePut copyFile
  cases hdat : lookupA st.data (hash b) with
  | none =>
    by_cases hb : b = []
    · refine ⟨cnow, ?_⟩
      subst hb
      simp [hdat, copyFileWrite, putIndexEntry]
    · refine ⟨cnow, ?_⟩
      have hlast := dropLast_getLastD b hb
      have hsz : b.length ≠ 0 := by
        intro h
        exact hb (List.length_eq_zero.mp h)
      simp only [hdat, copyFileWrite, honestRead, if_neg hsz, hlast, if_pos rfl]
      simp [putIndexEntry]
  | some fd =>
    by_cases hearly : fd.content.length = b.length ∧ hash fd.content = hash b
    · refine ⟨fd.mtime, ?_⟩
      have hcb : fd.content = b := hcoll fd hdat hearly.1 hearly.2
      have hfd : fd = ⟨b, fd.mtime⟩ := by
        cases fd
        simp_all
      have hset : setA st.data (hash b) ⟨b, fd.mtime⟩ = st.data := by
        apply setA_lookup_eq
        rw [hdat, hfd]
      simp only [hdat, if_pos hearly]
      simp [putIndexEntry, hset]
    · by_cases hb : b = []
      · refine ⟨cnow, ?_⟩
        subst hb
        have hlen0 : fd.content.length ≠ 0 := by
          intro h
          exact hearly ⟨by simpa using h, by rw [List.length_eq_zero.mp h]⟩
        have hne : fd.content ≠ [] := fun h => hlen0 (by simp [h])
        have hpos : 0 < fd.content.length := Nat.pos_of_ne_zero hlen0
        simp [hdat, copyFileWrite, putIndexEntry, hne, hpos]
      · refine ⟨cnow, ?_⟩
        have hlast := dropLast_getLastD b hb
        have hsz : b.length ≠ 0 := by
          intro h
          exact hb (List.length_eq_zero.mp h)
        simp only [hdat, if_neg hearly, copyFileWrite, honestRead, if_neg hsz, hlast,
          if_pos rfl]
        simp [putIndexEntry]

/-! ### Reading back a canonical entry -/

theorem cachePut_early (hash : Blob → Blob) (st : CacheFS) (b : Blob) (second : Read2)
    (wall cnow m : Int) (hdat : lookupA st.data (hash b) = some ⟨b, m⟩) :
    cachePut hash st b second wall cnow =
      (.ok (hash b, b.length), putIndexEntry st (hash b) b.length wall cnow) := by
  simp [cachePut, copyFile, hdat, putIndexEntry]

theorem cacheGet_canonical (S : Nat) (st : CacheFS) (cnow : Int) (id fmtc : Blob)
    (mt : Int) (e : Entry)
    (hidx : lookupA st.index id = some ⟨fmtc, mt⟩)
    (hparse : getIndexEntry S id (some fmtc) = .ok e) :
    ∃ idx', cacheGet S st cnow id = (.ok e, ⟨idx', st.data⟩) := by
  by_cases h : cnow - mt < mtimeInterval
  · refine ⟨st.index, ?_⟩
    simp [cacheGet, usedTouch, hidx, hparse, h]
  · refine ⟨setA st.index id ⟨fmtc, cnow⟩, ?_⟩
    simp [cacheGet, usedTouch, hidx, hparse, h]

theorem cacheGetFile_canonical (S : Nat) (st : CacheFS) (cnow : Int) (id fmtc b : Blob)
    (mt m : Int) (e : Entry)
    (hidx : lookupA st.index id = some ⟨fmtc, mt⟩)
    (hparse : getIndexEntry S id (some fmtc) = .ok e)
    (hdat : lookupA st.data id = some ⟨b, m⟩)
    (hsz : (b.length : Int) = e.size) :
    (cacheGetFile S st cnow id).1 = .ok (b, e) := by
  obtain ⟨idx', hget⟩ := cacheGet_canonical S st cnow id fmtc mt e hidx hparse
  by_cases h : cnow - m < mtimeInterval
  · simp [cacheGetFile, hget, usedTouch, hdat, h, hsz]
  · simp [cacheGetFile, hget, usedTouch, hdat, h, hsz, lookupA_setA_self]

theorem setA_setA (m : List (Blob × FileData)) (k : Blob) (v v' : FileData) :
    setA (setA m k v) k v' = setA m k v' := by
  induction m with
  | nil => simp [setA]
  | cons p rest ih =>
    obtain ⟨k0, v0⟩ := p
    by_cases h0 : k0 = k
    · simp [setA, h0]
    · simp [setA, h0, ih]

theorem cacheSize_setA_lookup (S : Nat) (m : List (Blob × FileData)) (k : Blob)
    (fd fd' : FileData) (hl : lookupA m k = some fd)
    (h : sizeContribution S (k, fd') = sizeContribution S (k, fd)) :
    ((setA m k fd').map (sizeContribution S)).sum = (m.map (sizeContribution S)).sum := by
  induction m with
  | nil => simp [lookupA] at hl
  | cons p rest ih =>
    obtain ⟨k0, v0⟩ := p
    by_cases h0 : k0 = k
    · subst h0
      have hv : v0 = fd := by simpa [lookupA] using hl
      subst hv
      simp [setA, h]
    · simp only [lookupA, if_neg h0] at hl
      simp [setA, h0, ih hl]

/-! ### Claim theorems -/

/-- C1: for every blob b, after a successful id, size, _ = Cache.Put of a
reader of b, Cache.Get(id) returns an entry with Size equal to the length
of b, and GetFile(id) returns a data-file path whose contents are exactly
b.  The hypotheses record that the hash output is an ID of size S made of
bytes, that the int64 fields of the index entry are representable, and
that a pre-existing data file of the same length whose content hashes to
the same ID has content b (the collision-resistance assumption the source
comments rely on). -/
theorem c1_round_trip (S : Nat) (hash : Blob → Blob) (st : CacheFS) (b : Blob)
    (wall cnow cnow2 cnow3 : Int)
    (hidlen : (hash b).length = S) (hidbytes : ∀ x ∈ hash b, x < 256)
    (hwall0 : 0 ≤ wall) (hwall : wall < 2 ^ 63) (hblen : b.length < 2 ^ 63)
    (hcoll : ∀ fd, lookupA st.data (hash b) = some fd →
      fd.content.length = b.length → hash fd.content = hash b → fd.content = b) :
    ∃ st1, cachePut hash st b (honestRead b) wall cnow = (.ok (hash b, b.length), st1) ∧
      (cacheGet S st1 cnow2 (hash b)).1 = .ok ⟨(b.length : Int), wall⟩ ∧
      (cacheGetFile S st1 cnow3 (hash b)).1 = .ok (b, ⟨(b.length : Int), wall⟩) := by
  obtain ⟨m, hput⟩ := cachePut_ok hash st b wall cnow hcoll
  refine ⟨_, hput, ?_, ?_⟩
  · have hidx : lookupA (setA st.index (hash b)
        ⟨formatEntry (hash b) b.length wall, cnow⟩) (hash b) =
        some ⟨formatEntry (hash b) b.length wall, cnow⟩ := lookupA_setA_self _ _ _
    have hparse := getIndexEntry_formatEntry S (hash b) b.length wall hidlen hidbytes
      hblen hwall0 hwall
    obtain ⟨idx', hget⟩ := cacheGet_canonical S
      ⟨setA st.index (hash b) ⟨formatEntry (hash b) b.length wall, cnow⟩,
       setA st.data (hash b) ⟨b, m⟩⟩ cnow2 (hash b) _ cnow
      ⟨(b.length : Int), wall⟩ hidx hparse
    rw [hget]
  · have hidx : lookupA (setA st.index (hash b)
        ⟨formatEntry (hash b) b.length wall, cnow⟩) (hash b) =
        some ⟨formatEntry (hash b) b.length wall, cnow⟩ := lookupA_setA_self _ _ _
    have hparse := getIndexEntry_formatEntry S (hash b) b.length wall hidlen hidbytes
      hblen hwall0 hwall
    have hdat : lookupA (setA st.data (hash b) ⟨b, m⟩) (hash b) = some ⟨b, m⟩ :=
      lookupA_setA_self _ _ _
    exact cacheGetFile_canonical S
      ⟨setA st.index (hash b) ⟨formatEntry (hash b) b.length wall, cnow⟩,
       setA st.data (hash b) ⟨b, m⟩⟩ cnow3 (hash b) _ b cnow m
      ⟨(b.length : Int), wall⟩ hidx hparse hdat rfl

/-- Witness for C1 at a concrete input: the identity hash, an empty cache,
and the blob consisting of the single byte 7. -/
theorem c1_round_trip_witness :
    ∃ st1, cachePut (fun x => x) ⟨[], []⟩ [7] (honestRead [7]) 3 0 =
        (.ok ([7], 1), st1) ∧
      (cacheGet 1 st1 5 [7]).1 = .ok ⟨(1 : Int), 3⟩ ∧
      (cacheGetFile 1 st1 5 [7]).1 = .ok ([7], ⟨(1 : Int), 3⟩) := by
  have h := c1_round_trip 1 (fun x => x) ⟨[], []⟩ [7] 3 0 5 5
    (by decide) (by decide) (by decide) (by decide) (by decide)
    (by intro fd hfd; simp [lookupA] at hfd)
  simpa using h

/-- C2: two successive Cache.Put calls with the same bytes b return the
same ID, leave the cache in the same valid state (identical data files, a
still-valid index entry, and literally the same state when the two calls
observe the same clocks), and leave Size() unchanged. -/
theorem c2_idempotent_put (S : Nat) (hash : Blob → Blob) (st : CacheFS) (b : Blob)
    (wall1 cnow1 wall2 cnow2 : Int)
    (hidlen : (hash b).length = S) (hidbytes : ∀ x ∈ hash b, x < 256)
    (hw10 : 0 ≤ wall1) (hw1 : wall1 < 2 ^ 63) (hw20 : 0 ≤ wall2) (hw2 : wall2 < 2 ^ 63)
    (hblen : b.length < 2 ^ 63)
    (hcoll : ∀ fd, lookupA st.data (hash b) = some fd →
      fd.content.length = b.length → hash fd.content = hash b → fd.content = b) :
    ∃ st1 st2,
      cachePut hash st b (honestRead b) wall1 cnow1 = (.ok (hash b, b.length), st1) ∧
      cachePut hash st1 b (honestRead b) wall2 cnow2 = (.ok (hash b, b.length), st2) ∧
      st2.data = st1.data ∧
      cacheSize S st2 = cacheSize S st1 ∧
      (cacheGet S st2 cnow2 (hash b)).1 = .ok ⟨(b.length : Int), wall2⟩ ∧
      (wall2 = wall1 → cnow2 = cnow1 → st2 = st1) := by
  obtain ⟨m, hput⟩ := cachePut_ok hash st b wall1 cnow1 hcoll
  set st1 : CacheFS := ⟨setA st.index (hash b) ⟨formatEntry (hash b) b.length wall1, cnow1⟩,
    setA st.data (hash b) ⟨b, m⟩⟩ with hst1
  have hdat1 : lookupA st1.data (hash b) = some ⟨b, m⟩ := by
    rw [hst1]; exact lookupA_setA_self _ _ _
  have hput2 := cachePut_early hash st1 b (honestRead b) wall2 cnow2 m hdat1
  refine ⟨st1, putIndexEntry st1 (hash b) b.length wall2 cnow2, hput, hput2, rfl,
    ?_, ?_, ?_⟩
  · have hlook1 : lookupA st1.index (hash b) =
        some ⟨formatEntry (hash b) b.length wall1, cnow1⟩ := by
      rw [hst1]; exact lookupA_setA_self _ _ _
    have hctr : sizeContribution S (hash b, ⟨formatEntry (hash b) b.length wall2, cnow2⟩) =
        sizeContribution S (hash b, ⟨formatEntry (hash b) b.length wall1, cnow1⟩) := by
      simp [sizeContribution,
        getIndexEntry_formatEntry S (hash b) b.length wall1 hidlen hidbytes hblen hw10 hw1,
        getIndexEntry_formatEntry S (hash b) b.length wall2 hidlen hidbytes hblen hw20 hw2]
    exact cacheSize_setA_lookup S st1.index (hash b) _ _ hlook1 hctr
  · have hidx2 : lookupA (putIndexEntry st1 (hash b) b.length wall2 cnow2).index (hash b) =
        some ⟨formatEntry (hash b) b.length wall2, cnow2⟩ := by
      unfold putIndexEntry
      exact lookupA_setA_self _ _ _
    obtain ⟨idx', hget⟩ := cacheGet_canonical S
      (putIndexEntry st1 (hash b) b.length wall2 cnow2) cnow2 (hash b) _ cnow2
      ⟨(b.length : Int), wall2⟩ hidx2
      (getIndexEntry_formatEntry S (hash b) b.length wall2 hidlen hidbytes hblen hw20 hw2)
    rw [hget]
  · intro hw hc
    subst hw
    subst hc
    simp [putIndexEntry, hst1, setA_setA]

/-- Witness for C2 at a concrete input: the identity hash, an empty cache,
and the blob consisting of the single byte 7, with distinct clocks for the
two calls. -/
theorem c2_idempotent_put_witness :
    ∃ st1 st2,
      cachePut (fun x => x) ⟨[], []⟩ [7] (honestRead [7]) 3 0 = (.ok ([7], 1), st1) ∧
      cachePut (fun x => x) st1 [7] (honestRead [7]) 4 9 = (.ok ([7], 1), st2) ∧
      st2.data = st1.data ∧
      cacheSize 1 st2 = cacheSize 1 st1 ∧
      (cacheGet 1 st2 9 [7]).1 = .ok ⟨(1 : Int), 4⟩ ∧
      (4 = 3 → 9 = 0 → st2 = st1) := by
  have h := c2_idempotent_put 1 (fun x => x) ⟨[], []⟩ [7] 3 0 4 9
    (by decide) (by decide) (by decide) (by decide) (by decide) (by decide) (by decide)
    (by intro fd hfd; simp [lookupA] at hfd)
  simpa using h

/-! ### Zero-length Put -/

theorem copyFile_zero_indep (hash : Blob → Blob) (st : CacheFS) (out : Blob)
    (sec sec' : Read2) (cnow : Int) :
    copyFile hash st out 0 sec cnow = copyFile hash st out 0 sec' cnow := by
  unfold copyFile
  cases hdat : lookupA st.data out with
  | none => simp [copyFileWrite]
  | some fd => simp [copyFileWrite]

theorem copyFile_zero (hash : Blob → Blob) (st : CacheFS) (sec : Read2) (cnow : Int) :
    ∃ m : Int, copyFile hash st (hash []) 0 sec cnow =
      (.ok (), { st with data := setA st.data (hash []) ⟨[], m⟩ }) := by
  unfold copyFile
  cases hdat : lookupA st.data (hash []) with
  | none => exact ⟨cnow, by simp [hdat, copyFileWrite]⟩
  | some fd =>
    by_cases hearly : fd.content.length = 0 ∧ hash fd.content = hash []
    · refine ⟨fd.mtime, ?_⟩
      have hcb : fd.content = [] := List.length_eq_zero.mp hearly.1
      have hset : setA st.data (hash []) ⟨[], fd.mtime⟩ = st.data := by
        apply setA_lookup_eq
        rw [hdat]
        cases fd
        simp_all
      simp [hdat, hearly, hset]
    · have hne : fd.content ≠ [] := by
        intro h
        exact hearly ⟨by simp [h], by rw [h]⟩
      have hpos : 0 < fd.content.length := List.length_pos.mpr hne
      refine ⟨cnow, ?_⟩
      simp [hdat, hearly, copyFileWrite, hpos, hne]

/-- C9: Cache.Put of a zero-length input succeeds, commits a zero-length
data file, never performs the verify-then-commit digest comparison (the
result does not depend on the second read pass at all), returns the keyed
hash of the empty byte sequence, and records Size 0 in the index entry. -/
theorem c9_zero_length_put (S : Nat) (hash : Blob → Blob) (st : CacheFS)
    (second second' : Read2) (wall cnow cnow2 : Int)
    (hidlen : (hash []).length = S) (hidbytes : ∀ x ∈ hash [], x < 256)
    (hwall0 : 0 ≤ wall) (hwall : wall < 2 ^ 63) :
    cachePut hash st [] second wall cnow = cachePut hash st [] second' wall cnow ∧
    (cachePut hash st [] second wall cnow).1 = .ok (hash [], 0) ∧
    (∃ m, lookupA (cachePut hash st [] second wall cnow).2.data (hash []) =
      some ⟨[], m⟩) ∧
    (cacheGet S (cachePut hash st [] second wall cnow).2 cnow2 (hash [])).1 =
      .ok ⟨(0 : Int), wall⟩ := by
  obtain ⟨m, hcf⟩ := copyFile_zero hash st second cnow
  have hput : cachePut hash st [] second wall cnow =
      (.ok (hash [], 0),
        ⟨setA st.index (hash []) ⟨formatEntry (hash []) 0 wall, cnow⟩,
         setA st.data (hash []) ⟨[], m⟩⟩) := by
    unfold cachePut
    simp only [List.length_nil, hcf, putIndexEntry]
  refine ⟨?_, by rw [hput], ?_, ?_⟩
  · unfold cachePut
    simp only [List.length_nil]
    rw [copyFile_zero_indep hash st (hash []) second second' cnow]
  · rw [hput]
    exact ⟨m, lookupA_setA_self _ _ _⟩
  · have hidx : lookupA (setA st.index (hash [])
        ⟨formatEntry (hash []) 0 wall, cnow⟩) (hash []) =
        some ⟨formatEntry (hash []) 0 wall, cnow⟩ := lookupA_setA_self _ _ _
    have hparse0 : getIndexEntry S (hash []) (some (formatEntry (hash []) 0 wall)) =
        .ok ⟨(0 : Int), wall⟩ := by
      have h0 := getIndexEntry_formatEntry S (hash []) 0 wall hidlen hidbytes
        (by norm_num) hwall0 hwall
      simpa using h0
    obtain ⟨idx', hget⟩ := cacheGet_canonical S
      ⟨setA st.index (hash []) ⟨formatEntry (hash []) 0 wall, cnow⟩,
       setA st.data (hash []) ⟨[], m⟩⟩ cnow2 (hash []) _ cnow ⟨(0 : Int), wall⟩ hidx
      hparse0
    simp only [hput]
    rw [hget]

/-- Witness for C9 at a concrete input: the identity hash, an empty cache,
and two different failing second passes. -/
theorem c9_zero_length_put_witness :
    cachePut (fun x => x) ⟨[], []⟩ [] .seekErr 3 0 =
      cachePut (fun x => x) ⟨[], []⟩ [] (.copyErr [1]) 3 0 ∧
    (cachePut (fun x => x) ⟨[], []⟩ [] .seekErr 3 0).1 = .ok ([], 0) ∧
    (∃ m, lookupA (cachePut (fun x => x) ⟨[], []⟩ [] .seekErr 3 0).2.data [] =
      some ⟨[], m⟩) ∧
    (cacheGet 0 (cachePut (fun x => x) ⟨[], []⟩ [] .seekErr 3 0).2 9 []).1 =
      .ok ⟨(0 : Int), 3⟩ := by
  have h := c9_zero_length_put 0 (fun x => x) ⟨[], []⟩ .seekErr (.copyErr [1]) 3 0 9
    (by decide) (by decide) (by decide) (by decide)
  simpa using h

/-! ### The verify-then-commit write path -/

theorem copyFile_noearly (hash : Blob → Blob) (st : CacheFS) (b : Blob)
    (second : Read2) (cnow : Int) (hb : b.length ≠ 0)
    (hnoearly : ∀ fd, lookupA st.data (hash b) = some fd →
      ¬(fd.content.length = b.length ∧ hash fd.content = hash b)) :
    copyFile hash st (hash b) b.length second cnow =
      match second with
      | .seekErr =>
        (.error (.ioError "seek"), { st with data := setA st.data (hash b) ⟨[], cnow⟩ })
      | .copyErr _ =>
        (.error (.ioError "copy"), { st with data := setA st.data (hash b) ⟨[], cnow⟩ })
      | .lastErr _ =>
        (.error (.ioError "read"), { st with data := setA st.data (hash b) ⟨[], cnow⟩ })
      | .ok body last =>
        if hash (body ++ [last]) = hash b then
          (.ok (), { st with data := setA st.data (hash b) ⟨body ++ [last], cnow⟩ })
        else
          (.error .contentChanged,
            { st with data := setA st.data (hash b) ⟨[], cnow⟩ }) := by
  cases hdat : lookupA st.data (hash b) with
  | none =>
    cases second <;> simp [copyFile, copyFileWrite, hdat, hb]
  | some fd =>
    have hfalse := hnoearly fd hdat
    cases second <;> simp [copyFile, copyFileWrite, hdat, hb, hfalse]

/-- C4: in the copy of a non-empty blob into the data file (the early
idempotence check not applying), any failure of the second read pass, and
a recomputed digest that differs from the expected ID, leave the data file
truncated to length 0 and make Put return an I/O or content-changed error
without writing the index entry; the final byte is committed, and Put
succeeds, exactly when the recomputed digest equals the ID. -/
theorem c4_verify_then_commit (hash : Blob → Blob) (st : CacheFS) (b : Blob)
    (wall cnow : Int) (hb : b ≠ [])
    (hnoearly : ∀ fd, lookupA st.data (hash b) = some fd →
      ¬(fd.content.length = b.length ∧ hash fd.content = hash b)) :
    (cachePut hash st b .seekErr wall cnow =
      (.error (.ioError "seek"), { st with data := setA st.data (hash b) ⟨[], cnow⟩ })) ∧
    (∀ w, cachePut hash st b (.copyErr w) wall cnow =
      (.error (.ioError "copy"), { st with data := setA st.data (hash b) ⟨[], cnow⟩ })) ∧
    (∀ body, cachePut hash st b (.lastErr body) wall cnow =
      (.error (.ioError "read"), { st with data := setA st.data (hash b) ⟨[], cnow⟩ })) ∧
    (∀ body last, cachePut hash st b (.ok body last) wall cnow =
      if hash (body ++ [last]) = hash b then
        (.ok (hash b, b.length),
          putIndexEntry { st with data := setA st.data (hash b) ⟨body ++ [last], cnow⟩ }
            (hash b) b.length wall cnow)
      else
        (.error .contentChanged,
          { st with data := setA st.data (hash b) ⟨[], cnow⟩ })) := by
  have hsz : b.length ≠ 0 := by
    intro h
    exact hb (List.length_eq_zero.mp h)
  refine ⟨?_, ?_, ?_, ?_⟩
  · simp only [cachePut, copyFile_noearly hash st b .seekErr cnow hsz hnoearly]
  · intro w
    simp only [cachePut, copyFile_noearly hash st b (.copyErr w) cnow hsz hnoearly]
  · intro body
    simp only [cachePut, copyFile_noearly hash st b (.lastErr body) cnow hsz hnoearly]
  · intro body last
    simp only [cachePut, copyFile_noearly hash st b (.ok body last) cnow hsz hnoearly]
    by_cases h : hash (body ++ [last]) = hash b
    · simp only [if_pos h]
    · simp only [if_neg h]

/-- Witness for C4 at a concrete input: the identity hash, an empty cache
and the blob [3]; the second pass either fails at seek, or delivers a
changed final byte (digest mismatch), or delivers the original byte
(digest match, committed). -/
theorem c4_verify_then_commit_witness :
    cachePut (fun x => x) ⟨[], []⟩ [3] .seekErr 7 1 =
      (.error (.ioError "seek"), ⟨[], [([3], ⟨[], 1⟩)]⟩) ∧
    cachePut (fun x => x) ⟨[], []⟩ [3] (.ok [] 4) 7 1 =
      (.error .contentChanged, ⟨[], [([3], ⟨[], 1⟩)]⟩) ∧
    cachePut (fun x => x) ⟨[], []⟩ [3] (.ok [] 3) 7 1 =
      (.ok ([3], 1), putIndexEntry ⟨[], [([3], ⟨[3], 1⟩)]⟩ [3] 1 7 1) := by
  have h := c4_verify_then_commit (fun x => x) ⟨[], []⟩ [3] 7 1 (by decide)
    (by intro fd hfd; simp [lookupA] at hfd)
  refine ⟨?_, ?_, ?_⟩
  · have h1 := h.1
    simpa [setA] using h1
  · have h2 := h.2.2.2 [] 4
    rw [if_neg (by decide)] at h2
    simpa [setA] using h2
  · have h3 := h.2.2.2 [] 3
    rw [if_pos (by decide)] at h3
    simpa [setA] using h3

/-! ### Error classification of the index parser -/

theorem getIndexEntry_error_notExist (S : Nat) (id : Blob) (content : Option Blob)
    (e : CacheError) (h : getIndexEntry S id content = .error e) :
    ∃ r, e = .notExist r := by
  cases content with
  | none =>
    simp only [getIndexEntry] at h
    injection h with h'
    exact ⟨"open", h'.symm⟩
  | some c =>
    simp only [getIndexEntry] at h
    split_ifs at h with h1 h2 h3 h4
    · injection h with h'
      exact ⟨"too long", h'.symm⟩
    · injection h with h'
      exact ⟨"file is empty", h'.symm⟩
    · injection h with h'
      exact ⟨"entry file incomplete", h'.symm⟩
    · split at h
      · injection h with h'
        exact ⟨"decoding ID", h'.symm⟩
      · split_ifs at h with h5
        · injection h with h'
          exact ⟨"mismatched ID", h'.symm⟩
        · split at h
          · injection h with h'
            exact ⟨"parsing size", h'.symm⟩
          · split_ifs at h with h6
            · injection h with h'
              exact ⟨"negative size", h'.symm⟩
            · split at h
              · injection h with h'
                exact ⟨"parsing timestamp", h'.symm⟩
              · split_ifs at h with h7
                injection h with h'
                exact ⟨"negative timestamp", h'.symm⟩
    · injection h with h'
      exact ⟨"invalid header", h'.symm⟩

/-- C3 (amended): every failure of getIndexEntry wraps os.ErrNotExist —
the cache never reports a distinct corrupt error and never a parsed entry
on failure; an absent index file and any content whose length differs from
entrySize (short, long, empty) do fail.  The original claim that every
deviation from the fixed-format record fails is refuted by the
counterexample: contents the parser tolerates (uppercase hex digits,
leading zeros or plus signs in the numeric fields) parse successfully. -/
theorem c3_malformed_index_missing :
    (∀ (S : Nat) (id : Blob) (content : Option Blob) (e : CacheError),
      getIndexEntry S id content = .error e → ∃ r, e = .notExist r) ∧
    (∀ (S : Nat) (id : Blob), getIndexEntry S id none = .error (.notExist "open")) ∧
    (∀ (S : Nat) (id : Blob) (c : Blob), c.length ≠ entrySize S →
      ∃ r, getIndexEntry S id (some c) = .error (.notExist r)) := by
  refine ⟨getIndexEntry_error_notExist, fun S id => rfl, ?_⟩
  intro S id c hlen
  simp only [getIndexEntry]
  by_cases h1 : c.length > entrySize S
  · exact ⟨"too long", by rw [if_pos h1]⟩
  · by_cases h2 : c.length = 0
    · refine ⟨"file is empty", ?_⟩
      rw [if_neg h1, if_pos h2]
    · refine ⟨"entry file incomplete", ?_⟩
      rw [if_neg h1, if_neg h2, if_pos (by omega)]

/-- Witness for C3 (amended) at concrete inputs: the one-byte content
[118] is short for S = 32 and is reported missing, and the resulting
error wraps the does-not-exist marker. -/
theorem c3_malformed_index_missing_witness :
    (∃ r, getIndexEntry 32 (List.replicate 32 0) (some [118]) =
      .error (.notExist r)) ∧
    getIndexEntry 32 (List.replicate 32 0) none = .error (.notExist "open") := by
  refine ⟨?_, c3_malformed_index_missing.2.1 32 (List.replicate 32 0)⟩
  exact c3_malformed_index_missing.2.2 32 (List.replicate 32 0) [118] (by decide)

/-- Counterexample to C3 as stated: an index-file content that deviates
from the canonical fixed-format record (it spells the hex ID with
uppercase digits, which putIndexEntry never writes) yet parses
successfully, returning an entry instead of a does-not-exist error. -/
theorem c3_counterexample :
    getIndexEntry 32 (List.replicate 32 171)
      (some ([118, 49, 32] ++ (List.replicate 32 [65, 66]).join ++ [32] ++
        pad20 (natDec 5) ++ [32] ++ pad20 (natDec 7) ++ [10])) =
      .ok ⟨5, 7⟩ ∧
    ¬ canonicalIndexContent (List.replicate 32 171)
      ([118, 49, 32] ++ (List.replicate 32 [65, 66]).join ++ [32] ++
        pad20 (natDec 5) ++ [32] ++ pad20 (natDec 7) ++ [10]) := by
  constructor
  · rfl
  · intro hcanon
    obtain ⟨size, wall, _, _, _, heq⟩ := hcanon
    have hbyte : (formatEntry (List.replicate 32 171) size wall).getD 3 0 = 97 := rfl
    have h1 := congrArg (fun l : List Nat => l.getD 3 0) heq
    simp only [] at h1
    rw [hbyte] at h1
    exact absurd h1 (by decide)

/-! ### What Get does to mtimes -/

/-- C8 (amended): Cache.Get never changes any data file (in particular it
never updates the data-file mtime; that is done by GetFile through
dataFile); what Get refreshes, subject to the hysteresis of used, is the
mtime of the index file: Chtimes runs exactly when now minus the index
mtime is at least mtimeInterval, and otherwise the state is unchanged. -/
theorem c8_get_touches_index_not_data :
    (∀ (S : Nat) (st : CacheFS) (cnow : Int) (id : Blob),
      (cacheGet S st cnow id).2.data = st.data) ∧
    (∀ (S : Nat) (st : CacheFS) (cnow : Int) (id : Blob) (fd : FileData) (e : Entry),
      lookupA st.index id = some fd →
      getIndexEntry S id (some fd.content) = .ok e →
      ((cnow - fd.mtime < mtimeInterval → cacheGet S st cnow id = (.ok e, st)) ∧
       (mtimeInterval ≤ cnow - fd.mtime →
         cacheGet S st cnow id = (.ok e, ⟨setA st.index id ⟨fd.content, cnow⟩, st.data⟩)))) := by
  constructor
  · intro S st cnow id
    unfold cacheGet
    split
    · rfl
    · split
      · rfl
      · rfl
  · intro S st cnow id fd e hidx hparse
    constructor
    · intro h
      simp [cacheGet, usedTouch, hidx, hparse, h]
    · intro h
      have h' : ¬ (cnow - fd.mtime < mtimeInterval) := not_lt.mpr h
      simp [cacheGet, usedTouch, hidx, hparse, h']

/-- Witness for C8 (amended): a one-entry cache, read first with a fresh
index mtime (no touch) and then with a stale one (index mtime refreshed,
data untouched). -/
theorem c8_get_touches_index_not_data_witness :
    (cacheGet 1 ⟨[([7], ⟨formatEntry [7] 1 0, 0⟩)], [([7], ⟨[7], 0⟩)]⟩ 5 [7]).2.data =
      [([7], ⟨[7], 0⟩)] ∧
    cacheGet 1 ⟨[([7], ⟨formatEntry [7] 1 0, 0⟩)], [([7], ⟨[7], 0⟩)]⟩ 5 [7] =
      (.ok ⟨1, 0⟩, ⟨[([7], ⟨formatEntry [7] 1 0, 0⟩)], [([7], ⟨[7], 0⟩)]⟩) ∧
    cacheGet 1 ⟨[([7], ⟨formatEntry [7] 1 0, 0⟩)], [([7], ⟨[7], 0⟩)]⟩
        mtimeInterval [7] =
      (.ok ⟨1, 0⟩, ⟨setA [([7], ⟨formatEntry [7] 1 0, 0⟩)] [7] ⟨formatEntry [7] 1 0,
        mtimeInterval⟩, [([7], ⟨[7], 0⟩)]⟩) := by
  have hidx : lookupA [([7], ⟨formatEntry [7] 1 0, 0⟩)] [7] =
      some ⟨formatEntry [7] 1 0, (0 : Int)⟩ := by decide
  have hparse : getIndexEntry 1 [7] (some (formatEntry [7] 1 0)) = .ok ⟨1, 0⟩ := rfl
  refine ⟨c8_get_touches_index_not_data.1 1 _ 5 [7], ?_, ?_⟩
  · exact (c8_get_touches_index_not_data.2 1
      ⟨[([7], ⟨formatEntry [7] 1 0, 0⟩)], [([7], ⟨[7], 0⟩)]⟩ 5 [7]
      ⟨formatEntry [7] 1 0, 0⟩ ⟨1, 0⟩ hidx hparse).1 (by decide)
  · exact (c8_get_touches_index_not_data.2 1
      ⟨[([7], ⟨formatEntry [7] 1 0, 0⟩)], [([7], ⟨[7], 0⟩)]⟩ mtimeInterval [7]
      ⟨formatEntry [7] 1 0, 0⟩ ⟨1, 0⟩ hidx hparse).2 (by decide)

/-- Counterexample to C8 as stated: a valid entry whose data file is stale
(now minus its mtime is well past mtimeInterval) while the index file is
fresh; Get succeeds yet leaves the whole state — in particular the stale
data-file mtime — unchanged, instead of calling Chtimes on the data
file. -/
theorem c8_counterexample :
    cacheGet 1 ⟨[([7], ⟨formatEntry [7] 1 0, 3600000000005⟩)], [([7], ⟨[7], 0⟩)]⟩
        3600000000005 [7] =
      (.ok ⟨1, 0⟩, ⟨[([7], ⟨formatEntry [7] 1 0, 3600000000005⟩)], [([7], ⟨[7], 0⟩)]⟩) ∧
    mtimeInterval ≤ (3600000000005 : Int) - 0 ∧
    (0 : Int) ≠ 3600000000005 := by
  exact ⟨rfl, by decide, by decide⟩

/-! ### Trim -/

theorem trimSubdirAll_keeps (st : CacheFS) (cutoff : Int) (id : Blob) (fd : FileData)
    (h : cutoff ≤ fd.mtime) :
    ((id, fd) ∈ st.index → (id, fd) ∈ (trimSubdirAll st cutoff).index) ∧
    ((id, fd) ∈ st.data → (id, fd) ∈ (trimSubdirAll st cutoff).data) := by
  have hf : (!decide (fd.mtime < cutoff)) = true := by
    simp only [Bool.not_eq_true', decide_eq_false_iff_not]
    omega
  exact ⟨fun hm => List.mem_filter.mpr ⟨hm, hf⟩, fun hm => List.mem_filter.mpr ⟨hm, hf⟩⟩

theorem trimLoop_keeps_fresh (S : Nat) (maxBytes now : Int) (fuel : Nat) :
    ∀ (maxAge : Nat) (st : CacheFS) (id : Blob) (fd : FileData),
      now - fd.mtime ≤ mtimeInterval →
      (((id, fd) ∈ st.index → (id, fd) ∈ (trimLoop S maxBytes now fuel maxAge st).1.index) ∧
       ((id, fd) ∈ st.data → (id, fd) ∈ (trimLoop S maxBytes now fuel maxAge st).1.data)) := by
  induction fuel with
  | zero =>
    intro maxAge st id fd h
    exact ⟨fun hm => hm, fun hm => hm⟩
  | succ fuel ih =>
    intro maxAge st id fd h
    have hcut : now - (maxAge : Int) - mtimeInterval ≤ fd.mtime := by omega
    have hkeep := trimSubdirAll_keeps st (now - (maxAge : Int) - mtimeInterval) id fd hcut
    simp only [trimLoop]
    by_cases hmb : maxBytes = 0
    · simp only [if_pos hmb]
      exact hkeep
    · simp only [if_neg hmb]
      by_cases hsz : cacheSize S (trimSubdirAll st (now - (maxAge : Int) - mtimeInterval)) >
          maxBytes
      · simp only [if_pos hsz]
        have hih := ih (maxAge / 2)
          (trimSubdirAll st (now - (maxAge : Int) - mtimeInterval)) id fd h
        exact ⟨fun hm => hih.1 (hkeep.1 hm), fun hm => hih.2 (hkeep.2 hm)⟩
      · simp only [if_neg hsz]
        exact hkeep

/-- C5 (amended): the halving loop of Trim never removes a file whose
mtime is within mtimeInterval of now — the cutoff is always at least
mtimeInterval in the past — and for maxBytes = 0 (a single pass with
maxAge = trimLimit) Trim returns after one iteration and never removes a
file whose mtime is within trimLimit + mtimeInterval of now.  The
original claim extended the trimLimit + mtimeInterval guarantee to
non-zero maxBytes, which the halving of maxAge breaks (see the
counterexample). -/
theorem c5_trim_age_bound :
    (∀ (S : Nat) (maxBytes now : Int) (fuel maxAge : Nat) (st : CacheFS)
      (id : Blob) (fd : FileData),
      now - fd.mtime ≤ mtimeInterval →
      (((id, fd) ∈ st.index → (id, fd) ∈ (trimLoop S maxBytes now fuel maxAge st).1.index) ∧
       ((id, fd) ∈ st.data → (id, fd) ∈ (trimLoop S maxBytes now fuel maxAge st).1.data))) ∧
    (∀ (S : Nat) (now : Int) (fuel : Nat) (st : CacheFS) (id : Blob) (fd : FileData),
      now - fd.mtime ≤ (trimLimitNs : Int) + mtimeInterval →
      (((id, fd) ∈ st.index → (id, fd) ∈ (cacheTrim S st now 0 (fuel + 1)).1.index) ∧
       ((id, fd) ∈ st.data → (id, fd) ∈ (cacheTrim S st now 0 (fuel + 1)).1.data)) ∧
      (cacheTrim S st now 0 (fuel + 1)).2 = true) := by
  refine ⟨fun S maxBytes now fuel maxAge => trimLoop_keeps_fresh S maxBytes now fuel maxAge,
    ?_⟩
  intro S now fuel st id fd h
  have hcut : now - (trimLimitNs : Int) - mtimeInterval ≤ fd.mtime := by omega
  have hkeep := trimSubdirAll_keeps st (now - (trimLimitNs : Int) - mtimeInterval) id fd hcut
  unfold cacheTrim
  simp only [trimLoop, if_pos rfl]
  exact ⟨hkeep, rfl⟩

/-- Witness for C5 (amended): a single fresh entry survives a size-driven
Trim and a Trim(0). -/
theorem c5_trim_age_bound_witness :
    (([7], (⟨[9], 50⟩ : FileData)) ∈
      (trimLoop 1 1 50 3 10 ⟨[([7], ⟨[9], 50⟩)], [([7], ⟨[9], 50⟩)]⟩).1.index) ∧
    (([7], (⟨[9], 50⟩ : FileData)) ∈
      (cacheTrim 1 ⟨[([7], ⟨[9], 50⟩)], [([7], ⟨[9], 50⟩)]⟩ 50 0 3).1.data) ∧
    (cacheTrim 1 ⟨[([7], ⟨[9], 50⟩)], [([7], ⟨[9], 50⟩)]⟩ 50 0 3).2 = true := by
  have h1 := (c5_trim_age_bound.1 1 1 50 3 10 ⟨[([7], ⟨[9], 50⟩)], [([7], ⟨[9], 50⟩)]⟩
    [7] ⟨[9], 50⟩ (by decide)).1
  have h2 := c5_trim_age_bound.2 1 50 2 ⟨[([7], ⟨[9], 50⟩)], [([7], ⟨[9], 50⟩)]⟩
    [7] ⟨[9], 50⟩ (by decide)
  exact ⟨h1 (by decide), h2.1.2 (by decide), h2.2⟩

/-- Counterexample to C5 as stated: with maxBytes = 1 and a large fresh
entry keeping the cache over the limit, the second iteration of the
halving loop (maxAge = trimLimit / 2) removes an entry whose data-file
mtime is well within trimLimit + mtimeInterval of now. -/
theorem c5_counterexample :
    ((List.replicate 32 1,
        (⟨formatEntry (List.replicate 32 1) 1 7, 280399999999999⟩ : FileData)) ∈
      (⟨[(List.replicate 32 0, ⟨formatEntry (List.replicate 32 0) 10 7, 500000000000000⟩),
         (List.replicate 32 1, ⟨formatEntry (List.replicate 32 1) 1 7, 280399999999999⟩)],
        [(List.replicate 32 0, ⟨[3], 500000000000000⟩),
         (List.replicate 32 1, ⟨[4], 280399999999999⟩)]⟩ : CacheFS).index) ∧
    (500000000000000 : Int) - 280399999999999 ≤ (trimLimitNs : Int) + mtimeInterval ∧
    ((List.replicate 32 1,
        (⟨formatEntry (List.replicate 32 1) 1 7, 280399999999999⟩ : FileData)) ∉
      (cacheTrim 32
        ⟨[(List.replicate 32 0, ⟨formatEntry (List.replicate 32 0) 10 7, 500000000000000⟩),
          (List.replicate 32 1, ⟨formatEntry (List.replicate 32 1) 1 7, 280399999999999⟩)],
         [(List.replicate 32 0, ⟨[3], 500000000000000⟩),
          (List.replicate 32 1, ⟨[4], 280399999999999⟩)]⟩
        500000000000000 1 2).1.index) ∧
    ((List.replicate 32 1, (⟨[4], 280399999999999⟩ : FileData)) ∉
      (cacheTrim 32
        ⟨[(List.replicate 32 0, ⟨formatEntry (List.replicate 32 0) 10 7, 500000000000000⟩),
          (List.replicate 32 1, ⟨formatEntry (List.replicate 32 1) 1 7, 280399999999999⟩)],
         [(List.replicate 32 0, ⟨[3], 500000000000000⟩),
          (List.replicate 32 1, ⟨[4], 280399999999999⟩)]⟩
        500000000000000 1 2).1.data) := by
  refine ⟨by decide, by decide, by decide, by decide⟩

theorem trimLoop_stuck (fuel : Nat) : ∀ maxAge : Nat,
    (trimLoop 32 1 500000000000000 fuel maxAge
      ⟨[(List.replicate 32 0, ⟨formatEntry (List.replicate 32 0) 5 7, 500000000000000⟩)],
       [(List.replicate 32 0, ⟨[9], 500000000000000⟩)]⟩).2 = false := by
  induction fuel with
  | zero => intro maxAge; rfl
  | succ fuel ih =>
    intro maxAge
    have hkeep : (!decide ((500000000000000 : Int) <
        500000000000000 - (maxAge : Int) - mtimeInterval)) = true := by
      simp only [Bool.not_eq_true', decide_eq_false_iff_not, mtimeInterval]
      omega
    have hsub : trimSubdirAll
        ⟨[(List.replicate 32 0, ⟨formatEntry (List.replicate 32 0) 5 7, 500000000000000⟩)],
         [(List.replicate 32 0, ⟨[9], 500000000000000⟩)]⟩
        (500000000000000 - (maxAge : Int) - mtimeInterval) =
        ⟨[(List.replicate 32 0, ⟨formatEntry (List.replicate 32 0) 5 7, 500000000000000⟩)],
         [(List.replicate 32 0, ⟨[9], 500000000000000⟩)]⟩ := by
      simp [trimSubdirAll, List.filter, hkeep]
    simp only [trimLoop, hsub]
    rw [if_neg (by decide : ¬ (1 : Int) = 0),
      if_pos (by decide : cacheSize 32
        ⟨[(List.replicate 32 0, ⟨formatEntry (List.replicate 32 0) 5 7, 500000000000000⟩)],
         [(List.replicate 32 0, ⟨[9], 500000000000000⟩)]⟩ > 1)]
    exact ih (maxAge / 2)

/-- C6: the halving loop of Trim has no floor in the code.  At the failing
input — maxBytes = 1 and a cache holding one fresh entry of Size 5 — the
fresh entry survives every cutoff, Size stays at 5 > maxBytes forever, and
the loop never returns: for every number of iterations observed, Trim is
still running (the spec mandates a floor such as maxAge below 1s to
guarantee termination; the source halves maxAge without one). -/
theorem c6_trim_halving_never_terminates (fuel : Nat) :
    (cacheTrim 32
      ⟨[(List.replicate 32 0, ⟨formatEntry (List.replicate 32 0) 5 7, 500000000000000⟩)],
       [(List.replicate 32 0, ⟨[9], 500000000000000⟩)]⟩
      500000000000000 1 fuel).2 = false :=
  trimLoop_stuck fuel trimLimitNs

/-! ### The CAS handler with the WebDAV upstream -/

/-- C7 (amended): on a local-cache miss the handler replies 404 exactly
when the upstream error is the canonical ErrNotFound sentinel, and 500 on
every other upstream error; but the WebDAV upstream as implemented
returns the raw gowebdav error for an absent object, never the sentinel,
so an id absent upstream produces a 500 reply, not 404. -/
theorem c7_upstream_not_found :
    (∀ (r : String) (ue : UpstreamError),
      (storageGet (.error (.notExist r)) (.error ue) = 404 ↔ ue = .errNotFound)) ∧
    (∀ (r : String) (server : Blob → Option Blob) (id : Blob),
      server id = none →
      storageGet (.error (.notExist r)) (webdavGet server id) = 500) := by
  constructor
  · intro r ue
    by_cases h : ue = UpstreamError.errNotFound
    · subst h
      simp [storageGet]
    · simp [storageGet, h]
  · intro r server id hs
    simp [storageGet, webdavGet, hs]

/-- Witness for C7 (amended): the sentinel maps to 404 and an empty
WebDAV server maps to 500. -/
theorem c7_upstream_not_found_witness :
    storageGet (.error (.notExist "get")) (.error .errNotFound) = 404 ∧
    storageGet (.error (.notExist "get"))
      (webdavGet (fun _ => none) (List.replicate 32 0)) = 500 := by
  refine ⟨(c7_upstream_not_found.1 "get" .errNotFound).mpr rfl, ?_⟩
  exact c7_upstream_not_found.2 "get" (fun _ => none) (List.replicate 32 0) rfl

/-- Counterexample to C7 as stated: with the WebDAV upstream of
webdav.go, an id absent upstream surfaces as the raw gowebdav 404 error,
which is not the ErrNotFound sentinel, so the handler replies 500 — not
the 404 the claim asserts. -/
theorem c7_counterexample :
    webdavGet (fun _ => none) (List.replicate 32 0) =
      .error (.gowebdavStatus 404) ∧
    storageGet (.error (.notExist "get"))
      (webdavGet (fun _ => none) (List.replicate 32 0)) = 500 ∧
    (500 : Nat) ≠ 404 := by
  exact ⟨rfl, rfl, by decide⟩

/-! ### The Size walk over arbitrary directory contents -/

theorem hexDecCapGo_encode (bs : Blob) (hb : ∀ x ∈ bs, x < 256) :
    ∀ (cap i : Nat), i + bs.length ≤ cap → hexDecCapGo cap (hexEncode bs) i = .ok bs := by
  induction bs with
  | nil => intro cap i h; rfl
  | cons b rest ih =>
    intro cap i h
    have hb' : b < 256 := hb b (by simp)
    have h1 : fromHexChar (hexDigitChar (b / 16)) = some (b / 16) :=
      fromHexChar_hexDigitChar _ (by omega)
    have h2 : fromHexChar (hexDigitChar (b % 16)) = some (b % 16) :=
      fromHexChar_hexDigitChar _ (by omega)
    have hcap : ¬ (cap ≤ i) := by
      simp only [List.length_cons] at h
      omega
    have ih' := ih (fun x hx => hb x (by simp [hx])) cap (i + 1)
      (by simp only [List.length_cons] at h; omega)
    have hb2 : 16 * (b / 16) + b % 16 = b := by omega
    simp only [hexEncode, hexDecCapGo, h1, h2, if_neg hcap, ih', hb2]

theorem dropLast_two_append (l : List Nat) (a b : Nat) :
    (l ++ [a, b]).dropLast.dropLast = l := by
  have h1 : l ++ [a, b] = (l ++ [a]) ++ [b] := by simp
  rw [h1, List.dropLast_concat, List.dropLast_concat]

/-- C10 (amended): the Size walk aborts only when hex-decoding a "-a"
base name fails; when every "-a" name in the directory hex-decodes within
the ID capacity the walk completes with a total, and a canonical index
file name whose contents fail to parse is skipped and counted as 0.  The
original claim that every base name other than exactly 2·S lowercase hex
characters aborts the walk is refuted by the counterexample: a short
even-length hex name decodes into the zero-initialised ID buffer and is
merely skipped. -/
theorem c10_size_walk :
    (∀ (S : Nat) (read : Blob → Option Blob) (names : List (List Nat)),
      (∀ nm ∈ names, [45, 97].isSuffixOf nm →
        ∃ bs, hexDecCapGo S nm.dropLast.dropLast 0 = .ok bs) →
      ∃ t, sizeWalkGo S read names = .done t) ∧
    (∀ (S : Nat) (read : Blob → Option Blob) (id : Blob),
      id.length = S → (∀ x ∈ id, x < 256) →
      (∃ e, getIndexEntry S id (read id) = .error e) →
      sizeWalkGo S read [hexEncode id ++ [45, 97]] = .done 0) := by
  constructor
  · intro S read names h
    induction names with
    | nil => exact ⟨0, rfl⟩
    | cons nm rest ih =>
      obtain ⟨t, ht⟩ := ih (fun x hx hs => h x (by simp [hx]) hs)
      by_cases hs : [45, 97].isSuffixOf nm
      · obtain ⟨bs, hdec⟩ := h nm (by simp) hs
        simp only [sizeWalkGo, if_pos hs, hdec, ht]
        exact ⟨_, rfl⟩
      · exact ⟨t, by simp only [sizeWalkGo, if_neg hs, ht]⟩
  · intro S read id hlen hbytes ⟨e, herr⟩
    have hsuf : ([45, 97] : List Nat).isSuffixOf (hexEncode id ++ [45, 97]) = true := by
      rw [List.isSuffixOf_iff_suffix]
      exact List.suffix_append _ _
    have htrim : (hexEncode id ++ [45, 97]).dropLast.dropLast = hexEncode id :=
      dropLast_two_append _ 45 97
    have hdec : hexDecCapGo S (hexEncode id) 0 = .ok id :=
      hexDecCapGo_encode id hbytes S 0 (by omega)
    have hpad : id ++ List.replicate (S - id.length) 0 = id := by
      rw [hlen]
      simp
    simp only [sizeWalkGo, if_pos hsuf, htrim, hdec, hpad, herr]
    norm_num

/-- Witness for C10 (amended): with S = 32 the walk over the short name
"ab-a" completes, and a canonical 64-hex-character name whose index file
is absent contributes 0. -/
theorem c10_size_walk_witness :
    (∃ t, sizeWalkGo 32 (fun _ => none) [[97, 98, 45, 97]] = .done t) ∧
    sizeWalkGo 32 (fun _ => none)
      [hexEncode (List.replicate 32 0) ++ [45, 97]] = .done 0 := by
  constructor
  · exact c10_size_walk.1 32 (fun _ => none) [[97, 98, 45, 97]]
      (by intro nm hnm hs; exact ⟨[171], by simp at hnm; subst hnm; decide⟩)
  · exact c10_size_walk.2 32 (fun _ => none) (List.replicate 32 0) (by decide)
      (by decide) ⟨.notExist "open", rfl⟩

/-- Counterexample to C10 as stated: the file name "ab-a" ends in "-a"
and its base "ab" is not 2·S = 64 lowercase hex characters, yet Size does
not abort: the two characters decode into the zero-initialised ID buffer,
the resulting ID has no index entry, and the walk completes with total
0. -/
theorem c10_counterexample :
    sizeWalkGo 32 (fun _ => none) [[97, 98, 45, 97]] = .done 0 ∧
    ([97, 98] : List Nat).length ≠ 2 * 32 := by
  exact ⟨rfl, by decide⟩

end DownloadMirror
